import Mathlib

/-!
# Concurrency_Programming: `parallel_accumulate` and `joining_thread`

A shallow embedding of `include/2/ThreadOwner.hpp`.

* Iterators into the input sequence are positions (`Nat`) in a list `xs`.
* `unsigned long` arithmetic is arithmetic on `Nat` reduced modulo `2 ^ 64`.
* A `std::thread` object is the optional task it represents: `some _` while it is
  joinable, `none` otherwise.
* The effect of a worker on its own result slot is applied when the worker is joined:
  the slot is written by that worker only and the calling thread reads it only after
  the join, so every interleaving yields the state computed here.
* An exception that leaves a worker's thread function calls `std::terminate`. The calling
  thread meets it at the latest when it joins that worker, which is where the model places
  it; when the process ends earlier the calling thread has only taken fewer steps.
-/

namespace ThreadOwner

/-! ## Machine integers -/

/-- Number of values of `unsigned long` (64 bits). -/
def ULONG_MOD : Nat := 2 ^ 64

/-- Largest value of `std::ptrdiff_t`, the result type of `std::distance`. -/
def PTRDIFF_MAX : Nat := 2 ^ 63 - 1

/-- Addition of two `unsigned long` values. -/
def uadd (a b : Nat) : Nat := (a + b) % ULONG_MOD

/-- Subtraction of two `unsigned long` values (wraps around below zero). -/
def usub (a b : Nat) : Nat :=
  if b % ULONG_MOD ≤ a % ULONG_MOD then a % ULONG_MOD - b % ULONG_MOD
  else a % ULONG_MOD + ULONG_MOD - b % ULONG_MOD

/-! ## Sizing of `parallel_accumulate` (ThreadOwner.hpp lines 36-43) -/

/-- Source: `unsigned long const min_per_thread = 25;` -/
def min_per_thread : Nat := 25

/-- Source: `max_threads = (length + min_per_thread - 1) / min_per_thread`. -/
def max_threads (length : Nat) : Nat :=
  usub (uadd length min_per_thread) 1 / min_per_thread

/-- Source: `hardware_threads != 0 ? hardware_threads : 2`. -/
def hardware_or_2 (hardware_threads : Nat) : Nat :=
  if hardware_threads ≠ 0 then hardware_threads else 2

/-- Source: `num_threads = std::min(hardware_threads != 0 ? hardware_threads : 2, max_threads)`. -/
def num_threads (length hardware_threads : Nat) : Nat :=
  min (hardware_or_2 hardware_threads) (max_threads length)

/-- Source: `block_size = length / num_threads`. -/
def block_size (length hardware_threads : Nat) : Nat :=
  length / num_threads length hardware_threads

/-! ## Execution model of `parallel_accumulate` -/

/-- Observable steps of one call. -/
inductive Event where
  /-- Step ⑦: `threads[i] = std::thread(accumulate_block(), block_start, block_end, ref(results[i]))`. -/
  | launch (i first last : Nat)
  /-- Step ⑨: the calling thread runs `accumulate_block()(block_start, last, results[i])`. -/
  | direct (i first last : Nat)
  /-- Step ⑩: `threads[i].join()` has returned. -/
  | join (i : Nat)
  deriving DecidableEq

/-- The point at which an operation of the call throws, if any. -/
inductive Fault where
  /-- Nothing throws. -/
  | none
  /-- The `std::thread` constructor of loop iteration `i` throws. -/
  | launch (i : Nat)
  /-- The reduction run by worker `i` (`accumulate_block` inside `threads[i]`) throws. -/
  | worker (i : Nat)
  /-- The reduction run by the calling thread at step ⑨ throws. -/
  | reduce
  /-- The final `std::accumulate(results.begin(), results.end(), init)` of step ⑪ throws. -/
  | fold
  deriving DecidableEq

/-- How a call ends. -/
inductive Outcome (T : Type) where
  /-- The call returns `v`. -/
  | returned (v : T)
  /-- An exception leaves the call and reaches the caller. -/
  | raised
  /-- `std::terminate` is called. -/
  | terminated
  deriving DecidableEq

/-- An element of `std::vector<std::thread> threads`: `some (first, last)` while the
object owns a worker reducing `[first, last)`, `none` while it is not joinable. -/
abbrev Worker := Option (Nat × Nat)

/-- The locals `results` and `threads`, and the steps taken so far. -/
structure State (T : Type) where
  results : List T
  threads : List Worker
  trace : List Event

/-- Result of one call: how it ended and, when the vectors were created, their last state. -/
structure Run (T : Type) where
  outcome : Outcome T
  final : Option (State T)

/-- Sequential `std::accumulate(first, last, init)` over the elements `l`. -/
def accumulate {T : Type} [Add T] (l : List T) (init : T) : T :=
  l.foldl (fun acc x => acc + x) init

/-- Source: `accumulate_block::operator()`, `result = std::accumulate(first, last, result)`,
with `first` and `last` positions in `xs`. -/
def accumulate_block {T : Type} [Add T] (xs : List T) (first last : Nat) (result : T) : T :=
  accumulate ((xs.drop first).take (last - first)) result

/-- An exception leaves the function body: the locals are destroyed, and destroying a
joinable `std::thread` calls `std::terminate`. -/
def unwind {T : Type} (st : State T) : Run T :=
  { outcome := if st.threads.any Option.isSome then Outcome.terminated else Outcome.raised,
    final := some st }

/-- Source lines 47-55, the launching loop: `k` iterations remain, `i` is the loop
counter. `std::advance(block_end, block_size)` moves the position by `bsize`, and
`threads[i]` takes over the new worker and its block. Returns the final `block_start`, or
the state in which a launch threw. -/
def spawn {T : Type} (fault : Fault) (bsize : Nat) :
    Nat → Nat → Nat → State T → Except (State T) (Nat × State T)
  | 0, _, block_start, st => Except.ok (block_start, st)
  | k + 1, i, block_start, st =>
    let block_end := block_start + bsize
    if fault = Fault.launch i then Except.error st
    else
      spawn fault bsize k (i + 1) block_end
        { st with
          threads := st.threads.set i (some (block_start, block_end)),
          trace := st.trace ++ [Event.launch i block_start block_end] }

/-- Source lines 58-60, `for (auto& entry : threads) entry.join();`: `k` entries remain,
`i` is the position of the next one. When `join` returns, worker `i` has run
`accumulate_block` on its block and `results[i]`, so its write is applied here. When the
reduction of worker `i` throws, the exception leaves the thread function (lines 22-25 and
51-53 have no handler), `std::terminate` is called and this `join` never returns. Joining a
thread that is not joinable throws, and the exception leaves the function body. Returns the
state after the loop, or the way the call ended inside the loop. -/
def join_all {T : Type} [Add T] [Zero T] (fault : Fault) (xs : List T) :
    Nat → Nat → State T → Except (Run T) (State T)
  | 0, _, st => Except.ok st
  | k + 1, i, st =>
    match st.threads.getD i none with
    | none => Except.error (unwind st)
    | some (first, last) =>
      if fault = Fault.worker i then
        Except.error { outcome := Outcome.terminated, final := some st }
      else
        join_all fault xs k (i + 1)
          { results := st.results.set i (accumulate_block xs first last (st.results.getD i 0)),
            threads := st.threads.set i none,
            trace := st.trace ++ [Event.join i] }

/-- Source: `parallel_accumulate(first, last, init)` on the sequence `xs`, where
`hardware_threads` is the value of `std::thread::hardware_concurrency()`. -/
def parallel_accumulate {T : Type} [Add T] [Zero T]
    (hardware_threads : Nat) (fault : Fault) (xs : List T) (init : T) : Run T :=
  let length := xs.length
  if length = 0 then { outcome := Outcome.returned init, final := none }
  else
    let n := num_threads length hardware_threads
    let bsize := block_size length hardware_threads
    let st0 : State T :=
      { results := List.replicate n 0, threads := List.replicate (usub n 1) none, trace := [] }
    match spawn fault bsize (usub n 1) 0 0 st0 with
    | Except.error st => unwind st
    | Except.ok (block_start, st1) =>
      if fault = Fault.reduce then unwind st1
      else
        let st2 : State T :=
          { st1 with
            results := st1.results.set (usub n 1)
              (accumulate_block xs block_start length (st1.results.getD (usub n 1) 0)),
            trace := st1.trace ++ [Event.direct (usub n 1) block_start length] }
        match join_all fault xs st2.threads.length 0 st2 with
        | Except.error r => r
        | Except.ok st3 =>
          if fault = Fault.fold then unwind st3
          else
            { outcome :=
                if st3.threads.any Option.isSome then Outcome.terminated
                else Outcome.returned (accumulate st3.results init),
              final := some st3 }

/-- Source: the vector built by `use_parallel_acc()` (ThreadOwner.cpp lines 10-13):
`std::vector<int> vec(10000)` holds 10000 zeros, and the loop appends 0, 1, ..., 9999. -/
def use_parallel_acc_vec : List Int :=
  List.replicate 10000 0 ++ (List.range 10000).map Int.ofNat

/-- Source: `use_parallel_acc()`, the value it prints as `sum`. -/
def use_parallel_acc (hardware_threads : Nat) : Outcome Int :=
  (parallel_accumulate hardware_threads Fault.none use_parallel_acc_vec 0).outcome

/-- The steps taken by a call. -/
def Run.trace {T : Type} (r : Run T) : List Event :=
  match r.final with
  | none => []
  | some st => st.trace

/-- The worker count of a call: the size of `std::vector<T> results(num_threads)`, when the
call created that vector. -/
def Run.worker_count {T : Type} (r : Run T) : Option Nat :=
  r.final.map (fun st => st.results.length)

/-- The blocks handed out by a call, in the order in which they were handed out. -/
def blocks_of : List Event → List (Nat × Nat)
  | [] => []
  | Event.launch _ first last :: es => (first, last) :: blocks_of es
  | Event.direct _ first last :: es => (first, last) :: blocks_of es
  | Event.join _ :: es => blocks_of es

/-- The worker tasks launched by a call (indices into `threads`). -/
def launched : List Event → List Nat
  | [] => []
  | Event.launch i _ _ :: es => i :: launched es
  | _ :: es => launched es

/-- The worker tasks joined by a call (indices into `threads`). -/
def joined : List Event → List Nat
  | [] => []
  | Event.join i :: es => i :: joined es
  | _ :: es => joined es

/-! ## `std::thread` and `joining_thread` (ThreadOwner.hpp lines 65-135) -/

/-- Identifier of a thread of execution. -/
abbrev TaskId := Nat

/-- What the calling thread has done to threads of execution, oldest first. -/
inductive Action where
  /-- The calling thread has waited until the task completed. -/
  | joined (id : TaskId)
  /-- The task was released and continues to run on its own. -/
  | detached (id : TaskId)
  deriving DecidableEq

/-- The error conditions of the operations. -/
inductive Error where
  /-- Stands for `std::system_error` with `std::errc::invalid_argument`, which the spec
  calls InvalidOperation: the operation needs a joinable thread. -/
  | invalid_argument
  deriving DecidableEq

/-- How an operation ends. -/
inductive Result (α : Type) where
  /-- The operation returns. -/
  | ok (a : α)
  /-- The operation throws. -/
  | throws (e : Error)
  /-- `std::terminate` is called. -/
  | terminate
  deriving DecidableEq

/-- Modelled from the spec: `std::thread` is standard-library code, not under src/. The
object holds "an optional handle to at most one running/joinable task (absent if never
assigned, already joined, detached, or moved-from)". -/
structure thread where
  id : Option TaskId
  deriving DecidableEq

/-- Modelled from the spec: `std::thread::joinable`, not under src/: "true iff an owned
task exists and has not yet been joined or detached". -/
def thread.joinable (t : thread) : Bool := t.id.isSome

/-- Modelled from the spec: `std::thread::join`, not under src/: "blocks the calling thread
until the owned task finishes; fails with an InvalidOperation condition if no joinable task
is owned". The object is not joinable afterwards. -/
def thread.join (t : thread) (log : List Action) : Result (thread × List Action) :=
  match t.id with
  | none => Result.throws Error.invalid_argument
  | some i => Result.ok ({ id := none }, log ++ [Action.joined i])

/-- Modelled from the spec: `std::thread::detach`, not under src/: "releases ownership
responsibility without waiting; the task continues running independently and is no longer
tracked. Fails with InvalidOperation if not currently joinable". -/
def thread.detach (t : thread) (log : List Action) : Result (thread × List Action) :=
  match t.id with
  | none => Result.throws Error.invalid_argument
  | some i => Result.ok ({ id := none }, log ++ [Action.detached i])

/-- Modelled from the spec: `std::thread::thread(thread&&)`, not under src/: ownership is
transferred and the source is left without a task ("moved-from"). Returns the new object
and the source. -/
def thread.move (other : thread) : thread × thread := (other, { id := none })

/-- Modelled from the spec: `std::thread::operator=(thread&&)`, not under src/: ownership
is transferred and the source is left without a task; by the C++ standard the assignment
calls `std::terminate` when the target is still joinable. Returns the target and the
source. -/
def thread.assign (self other : thread) : Result (thread × thread) :=
  if self.joinable then Result.terminate else Result.ok (other, { id := none })

/-- Modelled from the spec: `std::thread::~thread`, not under src/: by the C++ standard
destroying a joinable thread calls `std::terminate`. -/
def thread.destroy (t : thread) : Result Unit :=
  if t.joinable then Result.terminate else Result.ok ()

/-- Source: `class joining_thread { std::thread _t; ... }`. -/
structure joining_thread where
  _t : thread
  deriving DecidableEq

/-- Source: `joining_thread() noexcept = default;`. -/
def joining_thread.default : joining_thread := { _t := { id := none } }

/-- Source: `explicit joining_thread(Callable&& func, Args&&... args)`, which runs
`_t = std::thread(func, args...)`; `fresh` is the thread of execution that was started. -/
def joining_thread.start (fresh : TaskId) : Result joining_thread :=
  match thread.assign { id := none } { id := some fresh } with
  | Result.ok (t, _) => Result.ok { _t := t }
  | Result.throws e => Result.throws e
  | Result.terminate => Result.terminate

/-- Source: `explicit joining_thread(std::thread t) noexcept : _t(std::move(t)) {}`.
Returns the new owner and the argument. -/
def joining_thread.adopt (t : thread) : joining_thread × thread :=
  ({ _t := (thread.move t).1 }, (thread.move t).2)

/-- Source: `joining_thread(joining_thread&& other) noexcept : _t(std::move(other._t)) {}`.
Returns the new owner and `other`. -/
def joining_thread.move (other : joining_thread) : joining_thread × joining_thread :=
  ({ _t := (thread.move other._t).1 }, { _t := (thread.move other._t).2 })

/-- Source: `bool joinable() const noexcept { return _t.joinable(); }`. -/
def joining_thread.joinable (self : joining_thread) : Bool := self._t.joinable

/-- Source: `void join() { _t.join(); }`. -/
def joining_thread.join (self : joining_thread) (log : List Action) :
    Result (joining_thread × List Action) :=
  match self._t.join log with
  | Result.ok (t, log2) => Result.ok ({ _t := t }, log2)
  | Result.throws e => Result.throws e
  | Result.terminate => Result.terminate

/-- Source: `void detach() { _t.detach(); }`. -/
def joining_thread.detach (self : joining_thread) (log : List Action) :
    Result (joining_thread × List Action) :=
  match self._t.detach log with
  | Result.ok (t, log2) => Result.ok ({ _t := t }, log2)
  | Result.throws e => Result.throws e
  | Result.terminate => Result.terminate

/-- Source: `std::thread::id get_id() const noexcept { return _t.get_id(); }`. -/
def joining_thread.get_id (self : joining_thread) : Option TaskId := self._t.id

/-- Source: `void swap(joining_thread& other) noexcept { _t.swap(other._t); }`. -/
def joining_thread.swap (self other : joining_thread) : joining_thread × joining_thread :=
  (other, self)

/-- Source: `joining_thread& operator=(joining_thread&& other) noexcept`:
`if (joinable()) { _t.join(); } _t = std::move(other._t);`. The function is `noexcept`, so
an exception inside it calls `std::terminate`. Returns `*this`, `other` and the log. -/
def joining_thread.assign (self other : joining_thread) (log : List Action) :
    Result (joining_thread × joining_thread × List Action) :=
  let joined : Result (thread × List Action) :=
    if self.joinable then self._t.join log else Result.ok (self._t, log)
  match joined with
  | Result.ok (t, log2) =>
    match thread.assign t other._t with
    | Result.ok (t2, o2) => Result.ok ({ _t := t2 }, { _t := o2 }, log2)
    | _ => Result.terminate
  | _ => Result.terminate

/-- Source: `~joining_thread() noexcept { if (joinable()) { _t.join(); } }`, followed by
the destruction of the member `_t`. -/
def joining_thread.destroy (self : joining_thread) (log : List Action) :
    Result (List Action) :=
  let joined : Result (thread × List Action) :=
    if self.joinable then self._t.join log else Result.ok (self._t, log)
  match joined with
  | Result.ok (t, log2) =>
    match t.destroy with
    | Result.ok _ => Result.ok log2
    | _ => Result.terminate
  | _ => Result.terminate

/-- Source: `use_jointhread()` (ThreadOwner.cpp lines 53-81): `j1`, `j2` and `j3` own the
tasks 1, 2 and 3, `j1 = std::move(j3)`, then `j3`, `j2` and `j1` are destroyed in that
order. Returns the log of the calling thread. -/
def use_jointhread : Result (List Action) :=
  match joining_thread.start 1 with
  | Result.ok j1 =>
    let j2 := (joining_thread.adopt { id := some 2 }).1
    let j3 := (joining_thread.adopt { id := some 3 }).1
    match j1.assign j3 [] with
    | Result.ok (j1, j3, log) =>
      match j3.destroy log with
      | Result.ok log =>
        match j2.destroy log with
        | Result.ok log => j1.destroy log
        | r => r
      | r => r
    | Result.throws e => Result.throws e
    | Result.terminate => Result.terminate
  | Result.throws e => Result.throws e
  | Result.terminate => Result.terminate

/-! ## Closed forms used in the proofs -/

/-- The `k` blocks of `bsize` elements that start at position `s`. -/
def workers (bsize : Nat) : Nat → Nat → List (Nat × Nat)
  | 0, _ => []
  | k + 1, s => (s, s + bsize) :: workers bsize k (s + bsize)

/-- The launch steps of `k` loop iterations starting at counter `i` and position `s`. -/
def launches (bsize : Nat) : Nat → Nat → Nat → List Event
  | 0, _, _ => []
  | k + 1, i, s => Event.launch i s (s + bsize) :: launches bsize k (i + 1) (s + bsize)

/-- The join steps of `k` entries starting at entry `i`. -/
def joins : Nat → Nat → List Event
  | 0, _ => []
  | k + 1, i => Event.join i :: joins k (i + 1)

/-- The per-block results of a call that runs to the end. -/
def partials {T : Type} [Add T] [Zero T] (xs : List T) (n bsize : Nat) : List T :=
  (workers bsize (n - 1) 0).map (fun b => accumulate_block xs b.1 b.2 0)
    ++ [accumulate_block xs ((n - 1) * bsize) xs.length 0]

/-- The steps of a call that runs to the end. -/
def full_trace (L n bsize : Nat) : List Event :=
  launches bsize (n - 1) 0 0 ++ (Event.direct (n - 1) ((n - 1) * bsize) L :: joins (n - 1) 0)

/-- The fault never fires in a call with `n` blocks: nothing throws, or the worker whose
launch or reduction would throw is not among the `n - 1` workers of the call. -/
def silent (fault : Fault) (n : Nat) : Bool :=
  match fault with
  | Fault.none => true
  | Fault.launch j => decide (n - 1 ≤ j)
  | Fault.worker j => decide (n - 1 ≤ j)
  | Fault.reduce => false
  | Fault.fold => false

/-! ## Arithmetic of the sizing -/

theorem max_threads_eq (L : Nat) (hL : L ≤ PTRDIFF_MAX) :
    max_threads L = (L + 24) / 25 := by
  unfold max_threads usub uadd min_per_thread ULONG_MOD
  unfold PTRDIFF_MAX at hL
  norm_num at hL ⊢
  split <;> omega

theorem num_threads_pos (L h : Nat) (h1 : 1 ≤ L) (hL : L ≤ PTRDIFF_MAX) :
    1 ≤ num_threads L h := by
  unfold num_threads hardware_or_2
  rw [max_threads_eq L hL]
  split <;> omega

theorem num_threads_le_length (L h : Nat) (h1 : 1 ≤ L) (hL : L ≤ PTRDIFF_MAX) :
    num_threads L h ≤ L := by
  unfold num_threads
  rw [max_threads_eq L hL]
  omega

theorem num_threads_le_ceil (L h : Nat) (hL : L ≤ PTRDIFF_MAX) :
    num_threads L h ≤ (L + 24) / 25 := by
  unfold num_threads
  rw [max_threads_eq L hL]
  omega

theorem num_threads_le_hardware (L h : Nat) :
    num_threads L h ≤ hardware_or_2 h := by
  unfold num_threads
  omega

theorem usub_one (n : Nat) (h1 : 1 ≤ n) (hn : n ≤ PTRDIFF_MAX) : usub n 1 = n - 1 := by
  unfold usub ULONG_MOD
  unfold PTRDIFF_MAX at hn
  norm_num at hn ⊢
  split <;> omega

theorem block_size_pos (L h : Nat) (h1 : 1 ≤ L) (hL : L ≤ PTRDIFF_MAX) :
    1 ≤ block_size L h := by
  unfold block_size
  exact (Nat.one_le_div_iff (num_threads_pos L h h1 hL)).mpr (num_threads_le_length L h h1 hL)

theorem block_size_mul_le (L h : Nat) : num_threads L h * block_size L h ≤ L := by
  unfold block_size
  exact Nat.mul_div_le L (num_threads L h)

theorem prefix_blocks_le (L h : Nat) : (num_threads L h - 1) * block_size L h ≤ L := by
  have := block_size_mul_le L h
  have h2 : (num_threads L h - 1) * block_size L h ≤ num_threads L h * block_size L h :=
    Nat.mul_le_mul_right _ (Nat.sub_le _ _)
  omega

/-! ## Lists -/

theorem set_at_length {α : Type} (pre post : List α) (x y : α) :
    (pre ++ x :: post).set pre.length y = pre ++ y :: post := by
  induction pre with
  | nil => rfl
  | cons a pre ih => simp [List.set, ih]

theorem getD_at_length {α : Type} (pre post : List α) (x d : α) :
    (pre ++ x :: post).getD pre.length d = x := by
  induction pre with
  | nil => rfl
  | cons a pre ih => simpa [List.getD] using ih

/-! ## The launching loop -/

theorem spawn_ok {T : Type} (fault : Fault) (bsize : Nat) :
    ∀ (k i s : Nat) (st : State T) (pre post : List Worker),
      st.threads = pre ++ (List.replicate k none ++ post) → pre.length = i →
      (∀ j, fault = Fault.launch j → j < i ∨ i + k ≤ j) →
      spawn fault bsize k i s st = Except.ok (s + k * bsize,
        { results := st.results,
          threads := pre ++ ((workers bsize k s).map some ++ post),
          trace := st.trace ++ launches bsize k i s }) := by
  intro k
  induction k with
  | zero =>
    intro i s st pre post hthr _ _
    obtain ⟨r, t, e⟩ := st
    simp at hthr
    simp [spawn, workers, launches, hthr]
  | succ k ih =>
    intro i s st pre post hthr hlen hf
    have hne : fault ≠ Fault.launch i := by
      intro h
      rcases hf i h with h1 | h1 <;> omega
    rw [spawn, if_neg hne]
    have hset : st.threads.set i (some (s, s + bsize))
        = (pre ++ [some (s, s + bsize)]) ++ (List.replicate k none ++ post) := by
      rw [hthr, List.replicate_succ, List.cons_append, ← hlen, set_at_length]
      simp
    rw [ih (i + 1) (s + bsize) _ (pre ++ [some (s, s + bsize)]) post hset (by simp [hlen])
      (fun j hj => by rcases hf j hj with h1 | h1 <;> omega)]
    simp [workers, launches, Nat.succ_mul]
    omega

theorem spawn_fault {T : Type} (bsize : Nat) :
    ∀ (d k i s : Nat) (st : State T) (pre post : List Worker),
      st.threads = pre ++ (List.replicate k none ++ post) → pre.length = i → d < k →
      spawn (Fault.launch (i + d)) bsize k i s st = Except.error
        { results := st.results,
          threads := pre ++ ((workers bsize d s).map some ++ (List.replicate (k - d) none ++ post)),
          trace := st.trace ++ launches bsize d i s } := by
  intro d
  induction d with
  | zero =>
    intro k i s st pre post hthr _ hk
    obtain ⟨k, rfl⟩ : ∃ m, k = m + 1 := ⟨k - 1, by omega⟩
    simp [spawn, workers, launches, ← hthr]
  | succ d ih =>
    intro k i s st pre post hthr hlen hk
    obtain ⟨k, rfl⟩ : ∃ m, k = m + 1 := ⟨k - 1, by omega⟩
    have hne : Fault.launch (i + (d + 1)) ≠ Fault.launch i := by
      intro h
      injection h with h
      omega
    rw [spawn, if_neg hne]
    have hset : st.threads.set i (some (s, s + bsize))
        = (pre ++ [some (s, s + bsize)]) ++ (List.replicate k none ++ post) := by
      rw [hthr, List.replicate_succ, List.cons_append, ← hlen, set_at_length]
      simp
    have hidx : i + (d + 1) = (i + 1) + d := by omega
    rw [hidx, ih k (i + 1) (s + bsize) _ (pre ++ [some (s, s + bsize)]) post hset
      (by simp [hlen]) (by omega)]
    simp [workers, launches]

/-! ## The joining loop -/

theorem join_all_ok {T : Type} [Add T] [Zero T] (fault : Fault) (xs : List T) :
    ∀ (ws : List (Nat × Nat)) (i : Nat) (st : State T) (tpre tpost : List Worker)
      (rpre rpost : List T),
      st.threads = tpre ++ (ws.map some ++ tpost) → tpre.length = i →
      st.results = rpre ++ (List.replicate ws.length 0 ++ rpost) → rpre.length = i →
      (∀ j, fault = Fault.worker j → j < i ∨ i + ws.length ≤ j) →
      join_all fault xs ws.length i st = Except.ok
        { results := rpre ++ (ws.map (fun b => accumulate_block xs b.1 b.2 0) ++ rpost),
          threads := tpre ++ (List.replicate ws.length none ++ tpost),
          trace := st.trace ++ joins ws.length i } := by
  intro ws
  induction ws with
  | nil =>
    intro i st tpre tpost rpre rpost ht _ hr _ _
    obtain ⟨r, t, e⟩ := st
    simp at ht hr
    simp [join_all, joins, ht, hr]
  | cons w ws ih =>
    intro i st tpre tpost rpre rpost ht htl hr hrl hf
    obtain ⟨a, b⟩ := w
    have hne : fault ≠ Fault.worker i := by
      intro hc
      rcases hf i hc with h1 | h1
      · omega
      · simp at h1
    have hget : st.threads.getD i none = some (a, b) := by
      rw [ht, List.map_cons, List.cons_append, ← htl, getD_at_length]
    have hres : st.results.getD i 0 = 0 := by
      rw [hr, List.length_cons, List.replicate_succ, List.cons_append, ← hrl, getD_at_length]
    have htset : st.threads.set i none = (tpre ++ [none]) ++ (ws.map some ++ tpost) := by
      rw [ht, List.map_cons, List.cons_append, ← htl, set_at_length]
      simp
    have hrset : st.results.set i (accumulate_block xs a b 0)
        = (rpre ++ [accumulate_block xs a b 0]) ++ (List.replicate ws.length 0 ++ rpost) := by
      rw [hr, List.length_cons, List.replicate_succ, List.cons_append, ← hrl, set_at_length]
      simp
    rw [List.length_cons, join_all]
    simp only [hget, hres, if_neg hne]
    rw [ih (i + 1) _ (tpre ++ [none]) tpost (rpre ++ [accumulate_block xs a b 0]) rpost
      htset (by simp [htl]) hrset (by simp [hrl])
      (fun j hj => by
        have h1 := hf j hj
        simp only [List.length_cons] at h1
        omega)]
    simp [joins, List.replicate_succ]

theorem join_all_worker {T : Type} [Add T] [Zero T] (xs : List T) :
    ∀ (d : Nat) (ws : List (Nat × Nat)) (i : Nat) (st : State T) (tpre tpost : List Worker),
      st.threads = tpre ++ (ws.map some ++ tpost) → tpre.length = i → d < ws.length →
      ∃ st2 : State T,
        join_all (Fault.worker (i + d)) xs ws.length i st
          = Except.error { outcome := Outcome.terminated, final := some st2 } ∧
        st2.trace = st.trace ++ joins d i := by
  intro d
  induction d with
  | zero =>
    intro ws i st tpre tpost ht htl hd
    obtain ⟨⟨a, b⟩, ws, rfl⟩ : ∃ w ws2, ws = w :: ws2 := by
      cases ws with
      | nil => simp at hd
      | cons w ws2 => exact ⟨w, ws2, rfl⟩
    have hget : st.threads.getD i none = some (a, b) := by
      rw [ht, List.map_cons, List.cons_append, ← htl, getD_at_length]
    refine ⟨st, ?_, by simp [joins]⟩
    rw [List.length_cons, join_all]
    simp only [hget, Nat.add_zero, if_true]
  | succ d ih =>
    intro ws i st tpre tpost ht htl hd
    obtain ⟨⟨a, b⟩, ws, rfl⟩ : ∃ w ws2, ws = w :: ws2 := by
      cases ws with
      | nil => simp at hd
      | cons w ws2 => exact ⟨w, ws2, rfl⟩
    have hget : st.threads.getD i none = some (a, b) := by
      rw [ht, List.map_cons, List.cons_append, ← htl, getD_at_length]
    have htset : st.threads.set i none = (tpre ++ [none]) ++ (ws.map some ++ tpost) := by
      rw [ht, List.map_cons, List.cons_append, ← htl, set_at_length]
      simp
    have hne : Fault.worker (i + (d + 1)) ≠ Fault.worker i := by
      intro hc
      injection hc with hc
      omega
    have hidx : i + (d + 1) = (i + 1) + d := by omega
    obtain ⟨st2, h2, h3⟩ := ih ws (i + 1)
      { results := st.results.set i (accumulate_block xs a b (st.results.getD i 0)),
        threads := st.threads.set i none,
        trace := st.trace ++ [Event.join i] }
      (tpre ++ [none]) tpost htset (by simp [htl]) (by simpa using hd)
    refine ⟨st2, ?_, ?_⟩
    · rw [List.length_cons, join_all]
      simp only [hget, if_neg hne]
      rw [hidx]
      exact h2
    · rw [h3]
      simp [joins]

/-! ## Closed form of a call -/

theorem workers_length (bsize : Nat) : ∀ (k s : Nat), (workers bsize k s).length = k := by
  intro k
  induction k with
  | zero => intro s; rfl
  | succ k ih => intro s; simp [workers, ih]

theorem any_replicate_none (k : Nat) :
    (List.replicate k (none : Worker)).any Option.isSome = false := by
  induction k with
  | zero => rfl
  | succ k ih => simp [List.replicate_succ]

theorem run_joined {T : Type} [Add T] [Zero T] (h : Nat) (fault : Fault) (xs : List T)
    (init : T) (h1 : 1 ≤ xs.length) (hL : xs.length ≤ PTRDIFF_MAX)
    (hf1 : fault ≠ Fault.reduce)
    (hf2 : ∀ j, fault = Fault.launch j → num_threads xs.length h - 1 ≤ j)
    (hf3 : ∀ j, fault = Fault.worker j → num_threads xs.length h - 1 ≤ j) :
    parallel_accumulate h fault xs init =
      if fault = Fault.fold then
        unwind
          { results := partials xs (num_threads xs.length h) (block_size xs.length h),
            threads := List.replicate (num_threads xs.length h - 1) none,
            trace := full_trace xs.length (num_threads xs.length h) (block_size xs.length h) }
      else
        { outcome := Outcome.returned
            (accumulate (partials xs (num_threads xs.length h) (block_size xs.length h)) init),
          final := some
            { results := partials xs (num_threads xs.length h) (block_size xs.length h),
              threads := List.replicate (num_threads xs.length h - 1) none,
              trace := full_trace xs.length (num_threads xs.length h)
                (block_size xs.length h) } } := by
  have hn1 := num_threads_pos xs.length h h1 hL
  have hnL := num_threads_le_length xs.length h h1 hL
  have hsub := usub_one (num_threads xs.length h) hn1 (by omega)
  generalize hn : num_threads xs.length h = n at *
  generalize hb : block_size xs.length h = bsize at *
  have hne : ¬ xs.length = 0 := by omega
  have hsp := spawn_ok (T := T) fault bsize (n - 1) 0 0
    { results := List.replicate n 0, threads := List.replicate (n - 1) none, trace := [] }
    [] [] (by simp) rfl (by intro j hj; right; have := hf2 j hj; omega)
  have hrep : List.replicate n (0 : T) = List.replicate (n - 1) 0 ++ [0] := by
    obtain ⟨m, rfl⟩ : ∃ m, n = m + 1 := ⟨n - 1, by omega⟩
    simp [List.replicate_succ']
  have hidx : (List.replicate (n - 1) (0 : T)).length = n - 1 := by simp
  have hset : ∀ v : T, (List.replicate n (0 : T)).set (n - 1) v = List.replicate (n - 1) 0 ++ [v] := by
    intro v
    rw [hrep]
    nth_rewrite 2 [← hidx]
    rw [set_at_length]
  have hget : (List.replicate n (0 : T)).getD (n - 1) 0 = 0 := by
    rw [hrep]
    nth_rewrite 2 [← hidx]
    rw [getD_at_length]
  have hwl := workers_length bsize (n - 1) 0
  have hjoin := join_all_ok fault xs (workers bsize (n - 1) 0) 0
    { results := List.replicate (n - 1) 0 ++ [accumulate_block xs ((n - 1) * bsize) xs.length 0],
      threads := (workers bsize (n - 1) 0).map some,
      trace := launches bsize (n - 1) 0 0 ++ [Event.direct (n - 1) ((n - 1) * bsize) xs.length] }
    [] [] [] [accumulate_block xs ((n - 1) * bsize) xs.length 0]
    (by simp) rfl (by simp [hwl]) rfl
    (by intro j hj; right; have := hf3 j hj; omega)
  rw [hwl] at hjoin
  simp only [parallel_accumulate, if_neg hne, hn, hb, hsub, hsp, if_neg hf1]
  simp only [List.nil_append, List.append_nil, Nat.zero_add, hset, hget, List.length_map, hwl,
    hjoin]
  simp [any_replicate_none, partials, full_trace]

theorem silent_cases (fault : Fault) (n : Nat) (hf : silent fault n = true) :
    fault ≠ Fault.reduce ∧ fault ≠ Fault.fold ∧
    (∀ j, fault = Fault.launch j → n - 1 ≤ j) ∧ (∀ j, fault = Fault.worker j → n - 1 ≤ j) := by
  cases fault <;> simp_all [silent]

theorem run_ok {T : Type} [Add T] [Zero T] (h : Nat) (fault : Fault) (xs : List T) (init : T)
    (h1 : 1 ≤ xs.length) (hL : xs.length ≤ PTRDIFF_MAX)
    (hf : silent fault (num_threads xs.length h) = true) :
    parallel_accumulate h fault xs init =
      { outcome := Outcome.returned
          (accumulate (partials xs (num_threads xs.length h) (block_size xs.length h)) init),
        final := some
          { results := partials xs (num_threads xs.length h) (block_size xs.length h),
            threads := List.replicate (num_threads xs.length h - 1) none,
            trace := full_trace xs.length (num_threads xs.length h) (block_size xs.length h) } } := by
  obtain ⟨hf1, hf4, hf2, hf3⟩ := silent_cases fault _ hf
  rw [run_joined h fault xs init h1 hL hf1 hf2 hf3, if_neg hf4]

theorem run_fold_fault {T : Type} [Add T] [Zero T] (h : Nat) (xs : List T) (init : T)
    (h1 : 1 ≤ xs.length) (hL : xs.length ≤ PTRDIFF_MAX) :
    parallel_accumulate h Fault.fold xs init =
      { outcome := Outcome.raised,
        final := some
          { results := partials xs (num_threads xs.length h) (block_size xs.length h),
            threads := List.replicate (num_threads xs.length h - 1) none,
            trace := full_trace xs.length (num_threads xs.length h) (block_size xs.length h) } } := by
  rw [run_joined h Fault.fold xs init h1 hL (by decide) (by intro j hj; cases hj)
    (by intro j hj; cases hj), if_pos rfl]
  simp [unwind, any_replicate_none]

theorem run_worker_fault {T : Type} [Add T] [Zero T] (h d : Nat) (xs : List T) (init : T)
    (h1 : 1 ≤ xs.length) (hL : xs.length ≤ PTRDIFF_MAX)
    (hd : d < num_threads xs.length h - 1) :
    ∃ st : State T,
      parallel_accumulate h (Fault.worker d) xs init
        = { outcome := Outcome.terminated, final := some st } ∧
      st.trace = launches (block_size xs.length h) (num_threads xs.length h - 1) 0 0
        ++ (Event.direct (num_threads xs.length h - 1)
          ((num_threads xs.length h - 1) * block_size xs.length h) xs.length :: joins d 0) := by
  have hn1 := num_threads_pos xs.length h h1 hL
  have hnL := num_threads_le_length xs.length h h1 hL
  have hsub := usub_one (num_threads xs.length h) hn1 (by omega)
  generalize hn : num_threads xs.length h = n at *
  generalize hb : block_size xs.length h = bsize at *
  have hne : ¬ xs.length = 0 := by omega
  have hsp := spawn_ok (T := T) (Fault.worker d) bsize (n - 1) 0 0
    { results := List.replicate n 0, threads := List.replicate (n - 1) none, trace := [] }
    [] [] (by simp) rfl (by intro j hj; cases hj)
  have hwl := workers_length bsize (n - 1) 0
  obtain ⟨st, hst, htr⟩ := join_all_worker xs d (workers bsize (n - 1) 0) 0
    { results := (List.replicate n (0 : T)).set (n - 1)
        (accumulate_block xs ((n - 1) * bsize) xs.length
          ((List.replicate n (0 : T)).getD (n - 1) 0)),
      threads := (workers bsize (n - 1) 0).map some,
      trace := launches bsize (n - 1) 0 0 ++ [Event.direct (n - 1) ((n - 1) * bsize) xs.length] }
    [] [] (by simp) rfl (by omega)
  rw [hwl, Nat.zero_add] at hst
  refine ⟨st, ?_, by simp [htr]⟩
  simp only [parallel_accumulate, if_neg hne, hn, hb, hsub, hsp]
  simp only [List.nil_append, List.append_nil, Nat.zero_add, List.length_map, hwl, hst]
  simp

theorem run_launch_fault {T : Type} [Add T] [Zero T] (h d : Nat) (xs : List T) (init : T)
    (h1 : 1 ≤ xs.length) (hL : xs.length ≤ PTRDIFF_MAX)
    (hd : d < num_threads xs.length h - 1) :
    parallel_accumulate h (Fault.launch d) xs init =
      unwind
        { results := List.replicate (num_threads xs.length h) (0 : T),
          threads := (workers (block_size xs.length h) d 0).map some
            ++ List.replicate (num_threads xs.length h - 1 - d) none,
          trace := launches (block_size xs.length h) d 0 0 } := by
  have hn1 := num_threads_pos xs.length h h1 hL
  have hnL := num_threads_le_length xs.length h h1 hL
  have hsub := usub_one (num_threads xs.length h) hn1 (by omega)
  generalize hn : num_threads xs.length h = n at *
  generalize hb : block_size xs.length h = bsize at *
  have hne : ¬ xs.length = 0 := by omega
  have hsp := spawn_fault (T := T) bsize d (n - 1) 0 0
    { results := List.replicate n 0, threads := List.replicate (n - 1) none, trace := [] }
    [] [] (by simp) rfl hd
  rw [Nat.zero_add] at hsp
  simp only [parallel_accumulate, if_neg hne, hn, hb, hsub, hsp, List.nil_append,
    List.append_nil]

theorem run_reduce_fault {T : Type} [Add T] [Zero T] (h : Nat) (xs : List T) (init : T)
    (h1 : 1 ≤ xs.length) (hL : xs.length ≤ PTRDIFF_MAX) :
    parallel_accumulate h Fault.reduce xs init =
      unwind
        { results := List.replicate (num_threads xs.length h) (0 : T),
          threads := (workers (block_size xs.length h) (num_threads xs.length h - 1) 0).map some,
          trace := launches (block_size xs.length h) (num_threads xs.length h - 1) 0 0 } := by
  have hn1 := num_threads_pos xs.length h h1 hL
  have hnL := num_threads_le_length xs.length h h1 hL
  have hsub := usub_one (num_threads xs.length h) hn1 (by omega)
  generalize hn : num_threads xs.length h = n at *
  generalize hb : block_size xs.length h = bsize at *
  have hne : ¬ xs.length = 0 := by omega
  have hsp := spawn_ok (T := T) Fault.reduce bsize (n - 1) 0 0
    { results := List.replicate n 0, threads := List.replicate (n - 1) none, trace := [] }
    [] [] (by simp) rfl (by intro j hj; cases hj)
  simp only [parallel_accumulate, if_neg hne, hn, hb, hsub, hsp, List.nil_append,
    List.append_nil, if_true]

/-! ## The value of a call -/

theorem accumulate_eq {T : Type} [AddMonoid T] (l : List T) (init : T) :
    accumulate l init = init + l.sum := by
  unfold accumulate
  induction l generalizing init with
  | nil => simp
  | cons x l ih => simp [ih, add_assoc]

theorem accumulate_block_zero {T : Type} [AddMonoid T] (xs : List T) (a b : Nat) :
    accumulate_block xs a b 0 = ((xs.drop a).take (b - a)).sum := by
  simp [accumulate_block, accumulate_eq]

theorem workers_sum {T : Type} [AddMonoid T] (xs : List T) (bsize : Nat) :
    ∀ (k s : Nat), ((workers bsize k s).map (fun b => accumulate_block xs b.1 b.2 0)).sum
      = ((xs.drop s).take (k * bsize)).sum := by
  intro k
  induction k with
  | zero => intro s; simp [workers]
  | succ k ih =>
    intro s
    have hk : (k + 1) * bsize = bsize + k * bsize := by rw [Nat.succ_mul, Nat.add_comm]
    rw [hk, List.take_add, List.drop_drop, List.sum_append, ← ih (s + bsize)]
    simp [workers, accumulate_block_zero]

theorem partials_sum {T : Type} [AddMonoid T] (xs : List T) (n bsize : Nat) :
    (partials xs n bsize).sum = xs.sum := by
  have hlast : (xs.drop ((n - 1) * bsize)).take (xs.length - (n - 1) * bsize)
      = xs.drop ((n - 1) * bsize) := List.take_of_length_le (by simp)
  unfold partials
  rw [List.sum_append, workers_sum, List.sum_singleton, accumulate_block_zero, hlast,
    List.drop_zero, ← List.sum_append, List.take_append_drop]

/-! ## The steps of a call -/

theorem blocks_of_append (a b : List Event) :
    blocks_of (a ++ b) = blocks_of a ++ blocks_of b := by
  induction a with
  | nil => rfl
  | cons e a ih => cases e <;> simp [blocks_of, ih]

theorem launched_append (a b : List Event) :
    launched (a ++ b) = launched a ++ launched b := by
  induction a with
  | nil => rfl
  | cons e a ih => cases e <;> simp [launched, ih]

theorem joined_append (a b : List Event) :
    joined (a ++ b) = joined a ++ joined b := by
  induction a with
  | nil => rfl
  | cons e a ih => cases e <;> simp [joined, ih]

theorem blocks_of_launches (bsize : Nat) :
    ∀ (k i s : Nat), blocks_of (launches bsize k i s) = workers bsize k s := by
  intro k
  induction k with
  | zero => intro i s; rfl
  | succ k ih => intro i s; simp [launches, blocks_of, workers, ih]

theorem launched_launches (bsize : Nat) :
    ∀ (k i s : Nat), launched (launches bsize k i s) = List.range' i k := by
  intro k
  induction k with
  | zero => intro i s; rfl
  | succ k ih => intro i s; simp [launches, launched, ih, List.range'_succ]

theorem joined_launches (bsize : Nat) :
    ∀ (k i s : Nat), joined (launches bsize k i s) = [] := by
  intro k
  induction k with
  | zero => intro i s; rfl
  | succ k ih => intro i s; simp [launches, joined, ih]

theorem blocks_of_joins : ∀ (k i : Nat), blocks_of (joins k i) = [] := by
  intro k
  induction k with
  | zero => intro i; rfl
  | succ k ih => intro i; simp [joins, blocks_of, ih]

theorem launched_joins : ∀ (k i : Nat), launched (joins k i) = [] := by
  intro k
  induction k with
  | zero => intro i; rfl
  | succ k ih => intro i; simp [joins, launched, ih]

theorem joined_joins : ∀ (k i : Nat), joined (joins k i) = List.range' i k := by
  intro k
  induction k with
  | zero => intro i; rfl
  | succ k ih => intro i; simp [joins, joined, ih, List.range'_succ]

theorem blocks_of_full (L n bsize : Nat) :
    blocks_of (full_trace L n bsize) = workers bsize (n - 1) 0 ++ [((n - 1) * bsize, L)] := by
  simp [full_trace, blocks_of_append, blocks_of_launches, blocks_of, blocks_of_joins]

theorem launched_full (L n bsize : Nat) :
    launched (full_trace L n bsize) = List.range' 0 (n - 1) := by
  simp [full_trace, launched_append, launched_launches, launched, launched_joins]

theorem joined_full (L n bsize : Nat) :
    joined (full_trace L n bsize) = List.range' 0 (n - 1) := by
  simp [full_trace, joined_append, joined_launches, joined, joined_joins]

theorem workers_get (bsize : Nat) :
    ∀ (k s i : Nat), i < k → (workers bsize k s)[i]? = some (s + i * bsize, s + i * bsize + bsize) := by
  intro k
  induction k with
  | zero => intro s i hi; omega
  | succ k ih =>
    intro s i hi
    cases i with
    | zero => simp [workers]
    | succ i =>
      simp only [workers, List.getElem?_cons_succ]
      rw [ih (s + bsize) i (by omega), Nat.succ_mul]
      congr 2 <;> omega

theorem workers_mem (bsize : Nat) :
    ∀ (k s : Nat) (b : Nat × Nat), b ∈ workers bsize k s → b.2 = b.1 + bsize := by
  intro k
  induction k with
  | zero => intro s b hb; simp [workers] at hb
  | succ k ih =>
    intro s b hb
    simp only [workers, List.mem_cons] at hb
    rcases hb with rfl | hb
    · rfl
    · exact ih _ b hb

theorem workers_sizes (bsize : Nat) :
    ∀ (k s : Nat), ((workers bsize k s).map (fun b => b.2 - b.1)).sum = k * bsize := by
  intro k
  induction k with
  | zero => intro s; simp [workers]
  | succ k ih => intro s; simp [workers, ih, Nat.succ_mul, Nat.add_comm]

theorem mem_launches (bsize : Nat) :
    ∀ (k i s j a b : Nat), Event.launch j a b ∈ launches bsize k i s →
      ∃ d, d < k ∧ j = i + d ∧ a = s + d * bsize ∧ b = s + d * bsize + bsize := by
  intro k
  induction k with
  | zero => intro i s j a b hm; simp [launches] at hm
  | succ k ih =>
    intro i s j a b hm
    simp only [launches, List.mem_cons] at hm
    rcases hm with hm | hm
    · injection hm with h1 h2 h3
      exact ⟨0, by omega, by omega, by omega, by omega⟩
    · obtain ⟨d, hd, hj, ha, hb⟩ := ih _ _ _ _ _ hm
      refine ⟨d + 1, by omega, by omega, ?_, ?_⟩ <;> rw [Nat.succ_mul] <;> omega

theorem launch_not_mem_joins : ∀ (k i j a b : Nat), Event.launch j a b ∉ joins k i := by
  intro k
  induction k with
  | zero => intro i j a b hm; simp [joins] at hm
  | succ k ih =>
    intro i j a b hm
    simp only [joins, List.mem_cons] at hm
    rcases hm with hm | hm
    · cases hm
    · exact ih _ _ _ _ hm

/-! ## Results about `parallel_accumulate` -/

theorem range_sum_twice (n : Nat) :
    2 * ((List.range n).map Int.ofNat).sum = (n : Int) * ((n : Int) - 1) := by
  induction n with
  | zero => simp
  | succ n ih =>
    rw [List.range_succ, List.map_append, List.sum_append, mul_add, ih]
    simp
    ring

theorem outcome_ok {T : Type} [AddMonoid T] (h : Nat) (xs : List T) (init : T)
    (hL : xs.length ≤ PTRDIFF_MAX) :
    (parallel_accumulate h Fault.none xs init).outcome = Outcome.returned (init + xs.sum) := by
  by_cases h0 : xs.length = 0
  · have hx : xs = [] := List.length_eq_zero.mp h0
    subst hx
    simp [parallel_accumulate]
  · rw [run_ok h Fault.none xs init (by omega) hL rfl]
    simp [accumulate_eq, partials_sum]

/-- C1: on every input whose length fits `std::ptrdiff_t`, and for every reported hardware
concurrency `h`, a call in which nothing throws returns `init` plus the sum of all elements,
which is the value of the sequential `std::accumulate` over the whole range, and this value
is the same for every other hardware concurrency. -/
theorem parallel_accumulate_sum {T : Type} [AddMonoid T] (h : Nat) (xs : List T) (init : T)
    (hL : xs.length ≤ PTRDIFF_MAX) :
    (parallel_accumulate h Fault.none xs init).outcome = Outcome.returned (init + xs.sum) ∧
    (parallel_accumulate h Fault.none xs init).outcome = Outcome.returned (accumulate xs init) ∧
    ∀ h2 : Nat, (parallel_accumulate h2 Fault.none xs init).outcome
      = (parallel_accumulate h Fault.none xs init).outcome := by
  refine ⟨outcome_ok h xs init hL, ?_, ?_⟩
  · rw [outcome_ok h xs init hL, accumulate_eq]
  · intro h2
    rw [outcome_ok h xs init hL, outcome_ok h2 xs init hL]

/-- C1 at `xs = [0..9999]`, `init = 0`: the result is 49995000 for the worker counts
1, 2 and 8. -/
theorem parallel_accumulate_sum_witness :
    ((List.range 10000).map Int.ofNat).length ≤ PTRDIFF_MAX ∧
    (parallel_accumulate 1 Fault.none ((List.range 10000).map Int.ofNat) 0).outcome
      = Outcome.returned 49995000 ∧
    (parallel_accumulate 2 Fault.none ((List.range 10000).map Int.ofNat) 0).outcome
      = Outcome.returned 49995000 ∧
    (parallel_accumulate 8 Fault.none ((List.range 10000).map Int.ofNat) 0).outcome
      = Outcome.returned 49995000 := by
  have hlen : ((List.range 10000).map Int.ofNat).length ≤ PTRDIFF_MAX := by
    simp [PTRDIFF_MAX]
  have hsum : (0 : Int) + ((List.range 10000).map Int.ofNat).sum = 49995000 := by
    have := range_sum_twice 10000
    norm_num at this
    omega
  refine ⟨hlen, ?_, ?_, ?_⟩
  · rw [(parallel_accumulate_sum 1 _ 0 hlen).1, hsum]
  · rw [(parallel_accumulate_sum 2 _ 0 hlen).1, hsum]
  · rw [(parallel_accumulate_sum 8 _ 0 hlen).1, hsum]

theorem use_parallel_acc_sum (h : Nat) :
    use_parallel_acc h = Outcome.returned 49995000 := by
  have hlen : use_parallel_acc_vec.length ≤ PTRDIFF_MAX := by
    unfold use_parallel_acc_vec PTRDIFF_MAX
    rw [List.length_append, List.length_replicate, List.length_map, List.length_range]
    norm_num
  have hsum : (0 : Int) + use_parallel_acc_vec.sum = 49995000 := by
    have := range_sum_twice 10000
    norm_num at this
    unfold use_parallel_acc_vec
    rw [List.sum_append, List.sum_replicate, smul_zero]
    omega
  rw [use_parallel_acc, outcome_ok h _ 0 hlen, hsum]

/-- C4: on an empty sequence the call returns `init` unchanged whatever the hardware
concurrency and whatever operation would have thrown, without creating the `results` and
`threads` vectors and without launching or joining any worker. -/
theorem parallel_accumulate_empty {T : Type} [Add T] [Zero T] (h : Nat) (fault : Fault)
    (init : T) :
    (parallel_accumulate h fault ([] : List T) init).outcome = Outcome.returned init ∧
    (parallel_accumulate h fault ([] : List T) init).final = none ∧
    (parallel_accumulate h fault ([] : List T) init).trace = [] ∧
    launched (parallel_accumulate h fault ([] : List T) init).trace = [] ∧
    blocks_of (parallel_accumulate h fault ([] : List T) init).trace = [] := by
  simp [parallel_accumulate, Run.trace, launched, blocks_of]

theorem trace_ok {T : Type} [Add T] [Zero T] (h : Nat) (xs : List T) (init : T)
    (h1 : 1 ≤ xs.length) (hL : xs.length ≤ PTRDIFF_MAX) :
    (parallel_accumulate h Fault.none xs init).trace
      = full_trace xs.length (num_threads xs.length h) (block_size xs.length h) := by
  rw [run_ok h Fault.none xs init h1 hL rfl]
  rfl

theorem blocks_ok {T : Type} [Add T] [Zero T] (h : Nat) (xs : List T) (init : T)
    (h1 : 1 ≤ xs.length) (hL : xs.length ≤ PTRDIFF_MAX) :
    blocks_of (parallel_accumulate h Fault.none xs init).trace
      = workers (block_size xs.length h) (num_threads xs.length h - 1) 0
        ++ [((num_threads xs.length h - 1) * block_size xs.length h, xs.length)] := by
  rw [trace_ok h xs init h1 hL, blocks_of_full]

theorem blocks_length {T : Type} [Add T] [Zero T] (h : Nat) (xs : List T) (init : T)
    (h1 : 1 ≤ xs.length) (hL : xs.length ≤ PTRDIFF_MAX) :
    (blocks_of (parallel_accumulate h Fault.none xs init).trace).length
      = num_threads xs.length h := by
  have hn1 := num_threads_pos xs.length h h1 hL
  rw [blocks_ok h xs init h1 hL]
  simp [workers_length]
  omega

theorem workers_mem_index (bsize : Nat) :
    ∀ (k s : Nat) (b : Nat × Nat), b ∈ workers bsize k s →
      ∃ d, d < k ∧ b = (s + d * bsize, s + d * bsize + bsize) := by
  intro k
  induction k with
  | zero => intro s b hb; simp [workers] at hb
  | succ k ih =>
    intro s b hb
    simp only [workers, List.mem_cons] at hb
    rcases hb with rfl | hb
    · exact ⟨0, by omega, by simp⟩
    · obtain ⟨d, hd, rfl⟩ := ih _ b hb
      refine ⟨d + 1, by omega, ?_⟩
      rw [Nat.succ_mul]
      congr 1 <;> omega

theorem mul_block_le (L h d : Nat) (hd : d < num_threads L h - 1) :
    d * block_size L h + block_size L h ≤ L := by
  have h1 := prefix_blocks_le L h
  have h2 : (d + 1) * block_size L h ≤ (num_threads L h - 1) * block_size L h :=
    Nat.mul_le_mul_right _ (by omega)
  rw [Nat.succ_mul] at h2
  omega

/-- C3: for a non-empty input whose length fits `std::ptrdiff_t`, the blocks handed out by
a call in which nothing throws are exactly `num_threads` blocks; block `i < num_threads - 1`
is `[i * block_size, i * block_size + block_size)`; the last block is
`[(num_threads - 1) * block_size, L)`; each block starts where the previous one ends, the
first starts at the beginning of the range, every block lies inside the range, and the
block lengths add up to `L`. -/
theorem blocks_partition {T : Type} [Add T] [Zero T] (h : Nat) (xs : List T) (init : T)
    (h1 : 1 ≤ xs.length) (hL : xs.length ≤ PTRDIFF_MAX) :
    (blocks_of (parallel_accumulate h Fault.none xs init).trace).length
      = num_threads xs.length h ∧
    (∀ i, i < num_threads xs.length h - 1 →
      (blocks_of (parallel_accumulate h Fault.none xs init).trace)[i]?
        = some (i * block_size xs.length h, i * block_size xs.length h + block_size xs.length h)) ∧
    (blocks_of (parallel_accumulate h Fault.none xs init).trace)[num_threads xs.length h - 1]?
      = some ((num_threads xs.length h - 1) * block_size xs.length h, xs.length) ∧
    (num_threads xs.length h - 1) * block_size xs.length h ≤ xs.length ∧
    (∀ i, i + 1 < num_threads xs.length h → ∃ a b c,
      (blocks_of (parallel_accumulate h Fault.none xs init).trace)[i]? = some (a, b) ∧
      (blocks_of (parallel_accumulate h Fault.none xs init).trace)[i + 1]? = some (b, c)) ∧
    (∃ e, (blocks_of (parallel_accumulate h Fault.none xs init).trace)[0]? = some (0, e)) ∧
    (∀ b ∈ blocks_of (parallel_accumulate h Fault.none xs init).trace,
      b.1 ≤ b.2 ∧ b.2 ≤ xs.length) ∧
    ((blocks_of (parallel_accumulate h Fault.none xs init).trace).map
      (fun b => b.2 - b.1)).sum = xs.length := by
  have hn1 := num_threads_pos xs.length h h1 hL
  have hpre := prefix_blocks_le xs.length h
  have hmul := mul_block_le xs.length h
  rw [blocks_ok h xs init h1 hL]
  generalize num_threads xs.length h = n at *
  generalize block_size xs.length h = bsize at *
  have hwl := workers_length bsize (n - 1) 0
  have hget : ∀ i, i < n - 1 →
      (workers bsize (n - 1) 0 ++ [((n - 1) * bsize, xs.length)])[i]?
        = some (i * bsize, i * bsize + bsize) := by
    intro i hi
    rw [List.getElem?_append_left (by omega), workers_get bsize (n - 1) 0 i hi]
    simp
  have hlast : (workers bsize (n - 1) 0 ++ [((n - 1) * bsize, xs.length)])[n - 1]?
      = some ((n - 1) * bsize, xs.length) := by
    rw [List.getElem?_append_right (by omega)]
    simp [hwl]
  refine ⟨by simp [hwl]; omega, hget, hlast, hpre, ?_, ?_, ?_, ?_⟩
  · intro i hi
    by_cases hc : i + 1 < n - 1
    · refine ⟨i * bsize, i * bsize + bsize, (i + 1) * bsize + bsize, hget i (by omega), ?_⟩
      rw [hget (i + 1) hc, Nat.succ_mul]
    · have hi1 : i + 1 = n - 1 := by omega
      refine ⟨i * bsize, i * bsize + bsize, xs.length, hget i (by omega), ?_⟩
      rw [hi1, hlast, ← hi1, Nat.succ_mul]
  · by_cases hc : 0 < n - 1
    · exact ⟨bsize, by rw [hget 0 hc]; simp⟩
    · have hz : n - 1 = 0 := by omega
      refine ⟨xs.length, ?_⟩
      have := hlast
      rw [hz] at this
      rw [hz]
      simpa using this
  · intro b hb
    rw [List.mem_append] at hb
    rcases hb with hb | hb
    · obtain ⟨d, hd, rfl⟩ := workers_mem_index bsize (n - 1) 0 b hb
      have := hmul d hd
      simp only
      omega
    · simp only [List.mem_singleton] at hb
      subst hb
      simp only
      omega
  · rw [List.map_append, List.sum_append, workers_sizes]
    simp
    omega

/-- C3 on a sequence of 100 elements with hardware concurrency 3. -/
theorem blocks_partition_witness :
    1 ≤ (List.replicate 100 (1 : Int)).length ∧
    (List.replicate 100 (1 : Int)).length ≤ PTRDIFF_MAX ∧
    (blocks_of (parallel_accumulate 3 Fault.none (List.replicate 100 (1 : Int)) 0).trace).length
      = num_threads (List.replicate 100 (1 : Int)).length 3 :=
  ⟨by simp, by simp [PTRDIFF_MAX],
    (blocks_partition 3 (List.replicate 100 (1 : Int)) 0 (by simp) (by simp [PTRDIFF_MAX])).1⟩

theorem partials_length {T : Type} [Add T] [Zero T] (xs : List T) (n bsize : Nat)
    (hn : 1 ≤ n) : (partials xs n bsize).length = n := by
  simp [partials, workers_length]
  omega

/-- C10: for a non-empty input whose length fits `std::ptrdiff_t` and every hardware
concurrency, the `unsigned long` arithmetic does not wrap and stays in bounds:
`length + min_per_thread - 1` does not overflow, `num_threads >= 1`, `num_threads - 1` does
not wrap, `block_size >= 1`, `(num_threads - 1) * block_size <= length`, every launch
`threads[i]` has `i < num_threads - 1` and a block that ends inside the range, the vectors
have `num_threads` and `num_threads - 1` elements, and the calling thread writes
`results[num_threads - 1]`. -/
theorem arithmetic_in_bounds {T : Type} [Add T] [Zero T] (h : Nat) (xs : List T) (init : T)
    (h1 : 1 ≤ xs.length) (hL : xs.length ≤ PTRDIFF_MAX) :
    max_threads xs.length = (xs.length + 24) / 25 ∧
    1 ≤ num_threads xs.length h ∧
    usub (num_threads xs.length h) 1 = num_threads xs.length h - 1 ∧
    usub (num_threads xs.length h) 1 < num_threads xs.length h ∧
    1 ≤ block_size xs.length h ∧
    (num_threads xs.length h - 1) * block_size xs.length h ≤ xs.length ∧
    (∀ i a b, Event.launch i a b ∈ (parallel_accumulate h Fault.none xs init).trace →
      i < num_threads xs.length h - 1 ∧ a ≤ b ∧ b ≤ xs.length) ∧
    (∃ st, (parallel_accumulate h Fault.none xs init).final = some st ∧
      st.results.length = num_threads xs.length h ∧
      st.threads.length = num_threads xs.length h - 1) ∧
    Event.direct (num_threads xs.length h - 1)
      ((num_threads xs.length h - 1) * block_size xs.length h) xs.length
        ∈ (parallel_accumulate h Fault.none xs init).trace := by
  have hn1 := num_threads_pos xs.length h h1 hL
  have hnL := num_threads_le_length xs.length h h1 hL
  have hsub := usub_one (num_threads xs.length h) hn1 (by omega)
  refine ⟨max_threads_eq _ hL, hn1, hsub, by omega, block_size_pos _ h h1 hL,
    prefix_blocks_le _ h, ?_, ?_, ?_⟩
  · intro i a b hm
    rw [trace_ok h xs init h1 hL, full_trace, List.mem_append, List.mem_cons] at hm
    rcases hm with hm | hm | hm
    · obtain ⟨d, hd, hi, ha, hb⟩ := mem_launches _ _ _ _ _ _ _ hm
      have := mul_block_le xs.length h d hd
      omega
    · cases hm
    · exact absurd hm (launch_not_mem_joins _ _ _ _ _)
  · rw [run_ok h Fault.none xs init h1 hL rfl]
    exact ⟨_, rfl, partials_length xs _ _ hn1, by simp⟩
  · rw [trace_ok h xs init h1 hL, full_trace]
    simp

/-- C10 on a sequence of 100 elements with hardware concurrency 3. -/
theorem arithmetic_in_bounds_witness :
    1 ≤ (List.replicate 100 (1 : Int)).length ∧
    (List.replicate 100 (1 : Int)).length ≤ PTRDIFF_MAX ∧
    1 ≤ num_threads (List.replicate 100 (1 : Int)).length 3 ∧
    1 ≤ block_size (List.replicate 100 (1 : Int)).length 3 :=
  ⟨by simp, by simp [PTRDIFF_MAX],
    (arithmetic_in_bounds 3 (List.replicate 100 (1 : Int)) 0 (by simp)
      (by simp [PTRDIFF_MAX])).2.1,
    (arithmetic_in_bounds 3 (List.replicate 100 (1 : Int)) 0 (by simp)
      (by simp [PTRDIFF_MAX])).2.2.2.2.1⟩

/-- C2 as stated fails on the empty input: the call returns before any worker count is
computed, so there is no worker count that is at least 1; no block is handed out and no
worker is launched. -/
theorem worker_count_empty_input :
    Run.worker_count (parallel_accumulate 4 Fault.none ([] : List Int) 0) = none ∧
    ¬ (∃ n, Run.worker_count (parallel_accumulate 4 Fault.none ([] : List Int) 0) = some n ∧
        1 ≤ n ∧ n ≤ max 1 ⌈(([] : List Int).length : ℚ) / 25⌉₊ ∧ n ≤ 4) ∧
    (blocks_of (parallel_accumulate 4 Fault.none ([] : List Int) 0).trace).length = 0 ∧
    (launched (parallel_accumulate 4 Fault.none ([] : List Int) 0).trace).length = 0 := by
  refine ⟨by decide, ?_, by decide, by decide⟩
  rintro ⟨n, hn, -⟩
  have : Run.worker_count (parallel_accumulate 4 Fault.none ([] : List Int) 0) = none := by
    decide
  rw [this] at hn
  cases hn

/-- C2, amended: for a non-empty input whose length fits `std::ptrdiff_t` and every
hardware concurrency `h`, the call creates `results` with `num_threads` slots, hands out
`num_threads` blocks and launches `num_threads - 1` workers, where
`1 <= num_threads <= max(1, ceil(L / 25))` and `num_threads <= (h if h != 0, otherwise 2)`. -/
theorem worker_count_bounds {T : Type} [Add T] [Zero T] (h : Nat) (xs : List T) (init : T)
    (h1 : 1 ≤ xs.length) (hL : xs.length ≤ PTRDIFF_MAX) :
    Run.worker_count (parallel_accumulate h Fault.none xs init)
      = some (num_threads xs.length h) ∧
    (blocks_of (parallel_accumulate h Fault.none xs init).trace).length
      = num_threads xs.length h ∧
    (launched (parallel_accumulate h Fault.none xs init).trace).length
      = num_threads xs.length h - 1 ∧
    1 ≤ num_threads xs.length h ∧
    num_threads xs.length h ≤ max 1 ⌈(xs.length : ℚ) / (min_per_thread : ℚ)⌉₊ ∧
    num_threads xs.length h ≤ (if h ≠ 0 then h else 2) := by
  have hn1 := num_threads_pos xs.length h h1 hL
  have hceil := num_threads_le_ceil xs.length h hL
  refine ⟨?_, ?_, ?_, hn1, ?_, num_threads_le_hardware _ h⟩
  · rw [run_ok h Fault.none xs init h1 hL rfl]
    simp [Run.worker_count, partials_length xs _ _ hn1]
  · rw [blocks_ok h xs init h1 hL]
    simp [workers_length]
    omega
  · rw [trace_ok h xs init h1 hL, launched_full]
    simp
  · refine le_trans ?_ (le_max_right _ _)
    obtain ⟨m, hm⟩ : ∃ m, num_threads xs.length h = m + 1 := ⟨_, (Nat.sub_add_cancel hn1).symm⟩
    rw [hm, Nat.succ_le_iff, Nat.lt_ceil, lt_div_iff₀ (by norm_num [min_per_thread])]
    have hlt : m * 25 < xs.length := by omega
    have : ((m * 25 : ℕ) : ℚ) < (xs.length : ℚ) := by exact_mod_cast hlt
    simpa [min_per_thread] using this

/-- C2, amended, on a sequence of 100 elements with hardware concurrency 3. -/
theorem worker_count_bounds_witness :
    1 ≤ (List.replicate 100 (1 : Int)).length ∧
    (List.replicate 100 (1 : Int)).length ≤ PTRDIFF_MAX ∧
    Run.worker_count (parallel_accumulate 3 Fault.none (List.replicate 100 (1 : Int)) 0)
      = some (num_threads (List.replicate 100 (1 : Int)).length 3) :=
  ⟨by simp, by simp [PTRDIFF_MAX],
    (worker_count_bounds 3 (List.replicate 100 (1 : Int)) 0 (by simp)
      (by simp [PTRDIFF_MAX])).1⟩

/-- C9 as stated fails at 26 elements with hardware concurrency 2: the input is split
into two blocks of 13 elements, fewer than `min_per_thread`. -/
theorem min_per_thread_not_minimum :
    num_threads 26 2 = 2 ∧ block_size 26 2 = 13 ∧
    blocks_of (parallel_accumulate 2 Fault.none (List.replicate 26 (0 : Int)) 0).trace
      = [(0, 13), (13, 26)] ∧
    ¬ (∀ b ∈ blocks_of (parallel_accumulate 2 Fault.none (List.replicate 26 (0 : Int)) 0).trace,
        min_per_thread ≤ b.2 - b.1) := by
  decide

theorem split_block_size (L h : Nat) (hL : L ≤ PTRDIFF_MAX)
    (h2 : 2 ≤ num_threads L h) : 13 ≤ block_size L h := by
  have hceil := num_threads_le_ceil L h hL
  unfold block_size
  rw [Nat.le_div_iff_mul_le (by omega)]
  omega

/-- C9, amended: for an input whose length fits `std::ptrdiff_t` and every hardware
concurrency, whenever the input is split into two or more blocks every block has at least
13 elements (`block_size >= 13`, and `length > 25 * (num_threads - 1)`); an input of at
most 25 elements is never split: it gets at most one block, `num_threads = 1` when it is
not empty, and no block at all when it is empty. -/
theorem split_blocks_at_least_13 {T : Type} [Add T] [Zero T] (h : Nat) (xs : List T)
    (init : T) (hL : xs.length ≤ PTRDIFF_MAX) :
    (2 ≤ (blocks_of (parallel_accumulate h Fault.none xs init).trace).length →
      ∀ b ∈ blocks_of (parallel_accumulate h Fault.none xs init).trace, 13 ≤ b.2 - b.1) ∧
    (1 ≤ xs.length → 2 ≤ num_threads xs.length h →
      13 ≤ block_size xs.length h ∧ 25 * (num_threads xs.length h - 1) < xs.length) ∧
    (xs.length ≤ 25 →
      (blocks_of (parallel_accumulate h Fault.none xs init).trace).length ≤ 1) ∧
    (1 ≤ xs.length → xs.length ≤ 25 → num_threads xs.length h = 1) ∧
    (xs.length = 0 → blocks_of (parallel_accumulate h Fault.none xs init).trace = []) := by
  have hceil := num_threads_le_ceil xs.length h hL
  by_cases h0 : xs.length = 0
  · have hx : xs = [] := List.length_eq_zero.mp h0
    subst hx
    refine ⟨?_, ?_, ?_, ?_, ?_⟩ <;> simp [parallel_accumulate, Run.trace, blocks_of]
  · have h1 : 1 ≤ xs.length := by omega
    have hn1 := num_threads_pos xs.length h h1 hL
    have hlen : (blocks_of (parallel_accumulate h Fault.none xs init).trace).length
        = num_threads xs.length h := blocks_length h xs init h1 hL
    refine ⟨?_, ?_, ?_, ?_, ?_⟩
    · rw [hlen, blocks_ok h xs init h1 hL]
      intro h2 b hb
      have hbs := split_block_size xs.length h hL h2
      have hmul := block_size_mul_le xs.length h
      have hpre := prefix_blocks_le xs.length h
      rw [List.mem_append] at hb
      rcases hb with hb | hb
      · have := workers_mem _ _ _ b hb
        omega
      · simp only [List.mem_singleton] at hb
        subst hb
        simp only
        have hsplit : num_threads xs.length h * block_size xs.length h
            = (num_threads xs.length h - 1) * block_size xs.length h + block_size xs.length h := by
          conv_lhs => rw [← Nat.sub_add_cancel hn1, Nat.succ_mul]
        omega
    · intro _ h2
      exact ⟨split_block_size xs.length h hL h2, by omega⟩
    · intro h25
      rw [hlen]
      omega
    · intro _ h25
      omega
    · intro hz
      exact absurd hz h0

/-- C9, amended, on a sequence of 26 elements with hardware concurrency 2. -/
theorem split_blocks_at_least_13_witness :
    (List.replicate 26 (0 : Int)).length ≤ PTRDIFF_MAX ∧
    2 ≤ (blocks_of (parallel_accumulate 2 Fault.none (List.replicate 26 (0 : Int)) 0).trace).length ∧
    ∀ b ∈ blocks_of (parallel_accumulate 2 Fault.none (List.replicate 26 (0 : Int)) 0).trace,
      13 ≤ b.2 - b.1 :=
  ⟨by simp [PTRDIFF_MAX], by decide,
    (split_blocks_at_least_13 2 (List.replicate 26 (0 : Int)) 0 (by simp [PTRDIFF_MAX])).1
      (by decide)⟩

theorem any_workers (bsize d s : Nat) (rest : List Worker) (hd : 1 ≤ d) :
    ((workers bsize d s).map some ++ rest).any Option.isSome = true := by
  obtain ⟨m, rfl⟩ : ∃ m, d = m + 1 := ⟨d - 1, by omega⟩
  simp [workers]

/-- C8 as stated fails at 75 elements with hardware concurrency 3 when the launch of the
second worker throws: the first worker has been launched, it is never joined, and the call
ends in `std::terminate` instead of passing the error to the caller. -/
theorem launch_failure_abandons_worker :
    (parallel_accumulate 3 (Fault.launch 1) (List.replicate 75 (0 : Int)) 0).outcome
      = Outcome.terminated ∧
    launched (parallel_accumulate 3 (Fault.launch 1) (List.replicate 75 (0 : Int)) 0).trace
      = [0] ∧
    joined (parallel_accumulate 3 (Fault.launch 1) (List.replicate 75 (0 : Int)) 0).trace
      = [] := by
  decide

/-- C8, amended: for a non-empty input whose length fits `std::ptrdiff_t` and one point of
failure, (1) a call in which nothing throws joins every launched worker exactly once, in
launch order, and returns; (2) when the launch of worker `d` throws or the reduction on the
calling thread throws, no worker is joined, and the error reaches the caller only when no
worker had been launched (`d = 0`, or the reduction throws with `num_threads = 1`), while
otherwise the call ends in `std::terminate`; (3) when the final fold over `results` throws,
every launched worker has been joined exactly once and the error reaches the caller;
(4) when the reduction inside a launched worker throws, that worker is never joined and the
call ends in `std::terminate`, so it neither returns nor passes the error to the caller. -/
theorem join_only_without_fault {T : Type} [Add T] [Zero T] (h : Nat) (fault : Fault)
    (xs : List T) (init : T) (h1 : 1 ≤ xs.length) (hL : xs.length ≤ PTRDIFF_MAX) :
    (silent fault (num_threads xs.length h) = true →
      (∃ v, (parallel_accumulate h fault xs init).outcome = Outcome.returned v) ∧
      launched (parallel_accumulate h fault xs init).trace
        = List.range (num_threads xs.length h - 1) ∧
      joined (parallel_accumulate h fault xs init).trace
        = List.range (num_threads xs.length h - 1)) ∧
    (∀ d, fault = Fault.launch d → d < num_threads xs.length h - 1 →
      (parallel_accumulate h fault xs init).outcome
        = (if d = 0 then Outcome.raised else Outcome.terminated) ∧
      launched (parallel_accumulate h fault xs init).trace = List.range d ∧
      joined (parallel_accumulate h fault xs init).trace = []) ∧
    (fault = Fault.reduce →
      (parallel_accumulate h fault xs init).outcome
        = (if num_threads xs.length h = 1 then Outcome.raised else Outcome.terminated) ∧
      launched (parallel_accumulate h fault xs init).trace
        = List.range (num_threads xs.length h - 1) ∧
      joined (parallel_accumulate h fault xs init).trace = []) ∧
    (fault = Fault.fold →
      (parallel_accumulate h fault xs init).outcome = Outcome.raised ∧
      launched (parallel_accumulate h fault xs init).trace
        = List.range (num_threads xs.length h - 1) ∧
      joined (parallel_accumulate h fault xs init).trace
        = List.range (num_threads xs.length h - 1)) ∧
    (∀ d, fault = Fault.worker d → d < num_threads xs.length h - 1 →
      (parallel_accumulate h fault xs init).outcome = Outcome.terminated ∧
      d ∈ launched (parallel_accumulate h fault xs init).trace ∧
      d ∉ joined (parallel_accumulate h fault xs init).trace) := by
  have hn1 := num_threads_pos xs.length h h1 hL
  refine ⟨?_, ?_, ?_, ?_, ?_⟩
  · intro hs
    rw [run_ok h fault xs init h1 hL hs]
    refine ⟨⟨_, rfl⟩, ?_, ?_⟩
    · simp only [Run.trace]
      rw [launched_full, List.range_eq_range']
    · simp only [Run.trace]
      rw [joined_full, List.range_eq_range']
  · intro d hf hd
    subst hf
    rw [run_launch_fault h d xs init h1 hL hd]
    refine ⟨?_, ?_, ?_⟩
    · by_cases h0 : d = 0
      · subst h0
        simp [unwind, workers, any_replicate_none]
      · simp only [unwind, if_neg h0]
        rw [any_workers _ _ _ _ (by omega)]
        simp
    · simp only [unwind, Run.trace]
      rw [launched_launches, List.range_eq_range']
    · simp only [unwind, Run.trace]
      rw [joined_launches]
  · intro hf
    subst hf
    rw [run_reduce_fault h xs init h1 hL]
    refine ⟨?_, ?_, ?_⟩
    · by_cases hn : num_threads xs.length h = 1
      · simp [unwind, hn, workers]
      · simp only [unwind, if_neg hn]
        have := any_workers (block_size xs.length h) (num_threads xs.length h - 1) 0 []
          (by omega)
        rw [List.append_nil] at this
        rw [this]
        simp
    · simp only [unwind, Run.trace]
      rw [launched_launches, List.range_eq_range']
    · simp only [unwind, Run.trace]
      rw [joined_launches]
  · intro hf
    subst hf
    rw [run_fold_fault h xs init h1 hL]
    refine ⟨rfl, ?_, ?_⟩
    · simp only [Run.trace]
      rw [launched_full, List.range_eq_range']
    · simp only [Run.trace]
      rw [joined_full, List.range_eq_range']
  · intro d hf hd
    subst hf
    obtain ⟨st, hrun, htr⟩ := run_worker_fault h d xs init h1 hL hd
    rw [hrun]
    refine ⟨rfl, ?_, ?_⟩
    · simp only [Run.trace]
      rw [htr, launched_append, launched_launches]
      exact List.mem_append_left _ (by rw [← List.range_eq_range']; exact List.mem_range.mpr hd)
    · simp only [Run.trace]
      rw [htr, joined_append, joined_launches, List.nil_append]
      simp only [joined]
      rw [joined_joins, ← List.range_eq_range', List.mem_range]
      omega

theorem worker_failure_terminates :
    (parallel_accumulate 3 (Fault.worker 1) (List.replicate 75 (0 : Int)) 0).outcome
      = Outcome.terminated ∧
    launched (parallel_accumulate 3 (Fault.worker 1) (List.replicate 75 (0 : Int)) 0).trace
      = [0, 1] ∧
    1 ∉ joined (parallel_accumulate 3 (Fault.worker 1) (List.replicate 75 (0 : Int)) 0).trace := by
  decide

theorem fold_failure_reaches_caller :
    (parallel_accumulate 3 Fault.fold (List.replicate 75 (0 : Int)) 0).outcome
      = Outcome.raised ∧
    launched (parallel_accumulate 3 Fault.fold (List.replicate 75 (0 : Int)) 0).trace
      = [0, 1] ∧
    joined (parallel_accumulate 3 Fault.fold (List.replicate 75 (0 : Int)) 0).trace
      = [0, 1] := by
  decide

/-- C8, amended, on 75 elements with hardware concurrency 3 and no failure. -/
theorem join_only_without_fault_witness :
    1 ≤ (List.replicate 75 (0 : Int)).length ∧
    (List.replicate 75 (0 : Int)).length ≤ PTRDIFF_MAX ∧
    silent Fault.none (num_threads (List.replicate 75 (0 : Int)).length 3) = true ∧
    joined (parallel_accumulate 3 Fault.none (List.replicate 75 (0 : Int)) 0).trace
      = List.range (num_threads (List.replicate 75 (0 : Int)).length 3 - 1) :=
  ⟨by simp, by simp [PTRDIFF_MAX], rfl,
    ((join_only_without_fault 3 Fault.none (List.replicate 75 (0 : Int)) 0 (by simp)
      (by simp [PTRDIFF_MAX])).1 rfl).2.2⟩

/-! ## Results about `joining_thread` -/

/-- C5: for every owner state, `join()` and `detach()` throw the invalid-operation error
exactly when `joinable()` is false; `joinable()` is false for a default-constructed owner,
after a successful `join()`, after a successful `detach()`, and for an owner that was moved
from (by move construction or move assignment), so a later `join()` on any of these throws;
on a joinable owner `join()` and `detach()` succeed and leave `joinable()` false. -/
theorem join_detach_invalid_iff (j : joining_thread) (log : List Action) :
    (j.join log = Result.throws Error.invalid_argument ↔ j.joinable = false) ∧
    (j.detach log = Result.throws Error.invalid_argument ↔ j.joinable = false) ∧
    (joining_thread.default.joinable = false ∧
      joining_thread.default.join log = Result.throws Error.invalid_argument) ∧
    (∀ j2 log2, j.join log = Result.ok (j2, log2) →
      j2.joinable = false ∧ j2.join log2 = Result.throws Error.invalid_argument ∧
      j2.detach log2 = Result.throws Error.invalid_argument) ∧
    (∀ j2 log2, j.detach log = Result.ok (j2, log2) →
      j2.joinable = false ∧ j2.join log2 = Result.throws Error.invalid_argument ∧
      j2.detach log2 = Result.throws Error.invalid_argument) ∧
    ((joining_thread.move j).2.joinable = false ∧
      (joining_thread.move j).2.join log = Result.throws Error.invalid_argument) ∧
    (∀ (a a2 b2 : joining_thread) (log2 : List Action),
      a.assign j log = Result.ok (a2, b2, log2) →
      b2.joinable = false ∧ b2.join log2 = Result.throws Error.invalid_argument) ∧
    (j.joinable = true →
      (∃ j2 log2, j.join log = Result.ok (j2, log2) ∧ j2.joinable = false) ∧
      (∃ j2 log2, j.detach log = Result.ok (j2, log2) ∧ j2.joinable = false)) := by
  obtain ⟨⟨id⟩⟩ := j
  refine ⟨?_, ?_, ⟨rfl, rfl⟩, ?_, ?_, ⟨rfl, rfl⟩, ?_, ?_⟩
  · cases id <;> simp [joining_thread.join, thread.join, joining_thread.joinable, thread.joinable]
  · cases id <;>
      simp [joining_thread.detach, thread.detach, joining_thread.joinable, thread.joinable]
  · intro j2 log2 hj
    cases id with
    | none => simp [joining_thread.join, thread.join] at hj
    | some i =>
      simp only [joining_thread.join, thread.join, Result.ok.injEq, Prod.mk.injEq] at hj
      obtain ⟨rfl, rfl⟩ := hj
      exact ⟨rfl, rfl, rfl⟩
  · intro j2 log2 hj
    cases id with
    | none => simp [joining_thread.detach, thread.detach] at hj
    | some i =>
      simp only [joining_thread.detach, thread.detach, Result.ok.injEq, Prod.mk.injEq] at hj
      obtain ⟨rfl, rfl⟩ := hj
      exact ⟨rfl, rfl, rfl⟩
  · intro a a2 b2 log2 ha
    obtain ⟨⟨aid⟩⟩ := a
    cases aid with
    | none =>
      simp only [joining_thread.assign, joining_thread.joinable, thread.joinable, thread.assign,
        Option.isSome_none, Bool.false_eq_true, if_false, Result.ok.injEq, Prod.mk.injEq] at ha
      obtain ⟨-, rfl, -⟩ := ha
      exact ⟨rfl, rfl⟩
    | some i =>
      simp only [joining_thread.assign, joining_thread.joinable, thread.joinable, thread.assign,
        thread.join, Option.isSome_some, Option.isSome_none, if_true, Bool.false_eq_true,
        if_false, Result.ok.injEq, Prod.mk.injEq] at ha
      obtain ⟨-, rfl, -⟩ := ha
      exact ⟨rfl, rfl⟩
  · intro hj
    cases id with
    | none => simp [joining_thread.joinable, thread.joinable] at hj
    | some i => exact ⟨⟨_, _, rfl, rfl⟩, ⟨_, _, rfl, rfl⟩⟩

/-- C5 on an owner of task 1: `join()` succeeds, and a second `join()` throws. -/
theorem join_detach_invalid_iff_witness :
    joining_thread.joinable { _t := { id := some 1 } } = true ∧
    ∃ j2 log2, joining_thread.join { _t := { id := some 1 } } [] = Result.ok (j2, log2) ∧
      j2.joinable = false :=
  ⟨rfl, ((join_detach_invalid_iff { _t := { id := some 1 } } []).2.2.2.2.2.2.2 rfl).1⟩

/-- C6: for every owner state, destroying the owner neither throws nor calls
`std::terminate`; when the owner holds a joinable task the destructor joins that task, so
the task has completed when the destructor returns, and the member `_t` is destroyed while
not joinable; when the owner holds no task the destructor does nothing. -/
theorem destructor_joins (j : joining_thread) (log : List Action) :
    (∀ i, j._t.id = some i → j.destroy log = Result.ok (log ++ [Action.joined i])) ∧
    (j.joinable = false → j.destroy log = Result.ok log) ∧
    j.destroy log ≠ Result.terminate ∧
    (∀ e, j.destroy log ≠ Result.throws e) ∧
    (∀ i log2, j._t.id = some i → j.destroy log = Result.ok log2 → Action.joined i ∈ log2) := by
  obtain ⟨⟨id⟩⟩ := j
  cases id with
  | none =>
    simp [joining_thread.destroy, joining_thread.joinable, thread.joinable, thread.destroy]
  | some i =>
    simp [joining_thread.destroy, joining_thread.joinable, thread.joinable, thread.destroy,
      thread.join]

/-- C6 on an owner of task 1 that is dropped without `join()` or `detach()`. -/
theorem destructor_joins_witness :
    joining_thread.destroy { _t := { id := some 1 } } [] = Result.ok [Action.joined 1] :=
  (destructor_joins { _t := { id := some 1 } } []).1 1 rfl

/-- C7: for two distinct owners `a` and `b`, `a = std::move(b)` succeeds; when `a` holds a
joinable task it joins that task first, and joins or detaches nothing else; afterwards `a`
owns exactly the task `b` owned and `b` owns no task. -/
theorem move_assign_joins_first (a b : joining_thread) (log : List Action) :
    ∃ a2 b2 log2, a.assign b log = Result.ok (a2, b2, log2) ∧
      a2._t = b._t ∧ a2.get_id = b.get_id ∧ b2.joinable = false ∧
      (∀ i, a._t.id = some i → log2 = log ++ [Action.joined i]) ∧
      (a.joinable = false → log2 = log) := by
  obtain ⟨⟨aid⟩⟩ := a
  cases aid with
  | none =>
    exact ⟨{ _t := b._t }, { _t := { id := none } }, log, by
      simp [joining_thread.assign, joining_thread.joinable, thread.joinable, thread.assign,
        joining_thread.get_id]⟩
  | some i =>
    exact ⟨{ _t := b._t }, { _t := { id := none } }, log ++ [Action.joined i], by
      simp [joining_thread.assign, joining_thread.joinable, thread.joinable, thread.assign,
        thread.join, joining_thread.get_id]⟩

/-- C7 on `j1 = std::move(j3)` of `use_jointhread`: task 1 is joined, `j1` owns task 3 and
`j3` owns nothing. -/
theorem move_assign_joins_first_witness :
    ∃ a2 b2, joining_thread.assign { _t := { id := some 1 } } { _t := { id := some 3 } } []
        = Result.ok (a2, b2, [Action.joined 1]) ∧
      a2._t = { id := some 3 } ∧ b2.joinable = false := by
  obtain ⟨a2, b2, log2, h1, h2, -, h3, h4, -⟩ :=
    move_assign_joins_first { _t := { id := some 1 } } { _t := { id := some 3 } } []
  exact ⟨a2, b2, by rw [h1, h4 1 rfl]; rfl, h2, h3⟩

theorem use_jointhread_log :
    use_jointhread
      = Result.ok [Action.joined 1, Action.joined 2, Action.joined 3] := by
  decide

end ThreadOwner

